import Mathlib

/-!
Verification development for the hulk robot control core.

Shallow embedding of:
- `crates/types/src/image.rs` (`Image`, `width`, `at`, `try_at`);
- `crates/code_generation/src/perception_databases.rs` (the generated
  `Updates::first_timestamp_of_temporary_databases` and
  `Updates::push_to_databases`);
- the cycler code emitted by `tools/macro_tester/src/main.rs`
  (`get_start_method`, `get_cycle_method`, `get_execution`);
- `crates/communication/src/server/parameters/storage.rs` (`handle_request`,
  `UpdateParameter` arm);
- the slotted state buffer of spec section 4.1 (its implementation,
  `framework::n_tuple_buffer`, is not part of the analysed sources).

Rust `panic!`/`unwrap` failures are modelled as `Option`/`Except` `none`
and `error` results; `SystemTime` timestamps are modelled as `Nat`;
machine integers that never overflow in the modelled paths are `Nat`.
-/

set_option maxHeartbeats 1000000

namespace Hulk

/-! ## Image (crates/types/src/image.rs) -/

/-- One YCbCr422 buffer element: two luma samples sharing chroma. -/
structure YCbCr422 where
  y1 : Nat
  cb : Nat
  y2 : Nat
  cr : Nat
deriving DecidableEq, Repr

/-- A full-resolution pixel. -/
structure YCbCr444 where
  y : Nat
  cb : Nat
  cr : Nat
deriving DecidableEq, Repr

/-- `Image` from image.rs: a YCbCr422 buffer with 422-width and height. -/
structure Image where
  buffer : List YCbCr422
  width_422 : Nat
  height : Nat
deriving DecidableEq, Repr

/-- `Image::width`: `self.width_422 * 2`. -/
def Image.width (img : Image) : Nat :=
  img.width_422 * 2

/-- `Image::coordinates_to_buffer_index`: `y * width_422 + x / 2`. -/
def Image.coordinates_to_buffer_index (img : Image) (x y : Nat) : Nat :=
  y * img.width_422 + x / 2

/-- `Image::at`: unchecked buffer indexing (`none` models the Rust panic on
an out-of-range index) followed by 422→444 conversion. -/
def Image.at' (img : Image) (x y : Nat) : Option YCbCr444 :=
  match img.buffer.get? (img.coordinates_to_buffer_index x y) with
  | none => none
  | some pixel =>
    some { y := if x % 2 = 0 then pixel.y1 else pixel.y2
           cb := pixel.cb
           cr := pixel.cr }

/-- `Image::try_at`: bounds check against `width()`/`height()`, then the
same buffer access and conversion as `at`. -/
def Image.try_at (img : Image) (x y : Nat) : Option YCbCr444 :=
  if x ≥ img.width ∨ y ≥ img.height then
    none
  else
    match img.buffer.get? (img.coordinates_to_buffer_index x y) with
    | none => none
    | some pixel =>
      some { y := if x % 2 = 0 then pixel.y1 else pixel.y2
             cb := pixel.cb
             cr := pixel.cr }

/-! ## Generated perception updates
(crates/code_generation/src/perception_databases.rs) -/

/-- `framework::Item`: one timestamped completed perception result. -/
structure Timestamped (T : Type) where
  timestamp : Nat
  data : T
deriving DecidableEq, Repr

/-- One `framework::Update` field of the generated `Updates` struct: the
drained items of one perception cycler instance plus its open watermark. -/
structure Update (T : Type) where
  items : List (Timestamped T)
  first_timestamp_of_non_finalized_database : Option Nat
deriving DecidableEq, Repr

/-- Rust `Iterator::min` over the flattened timestamps. -/
def iterMin : List Nat → Option Nat
  | [] => none
  | t :: rest =>
    match iterMin rest with
    | none => some t
    | some m => some (min t m)

/-- The generated `Updates::first_timestamp_of_temporary_databases`: for an
empty set of perception instances the generator emits a literal `None`;
otherwise the array of per-instance watermarks is flattened and its minimum
taken. Generalized over the (code-generation-time) instance list. -/
def first_timestamp_of_temporary_databases {T : Type} (updates : List (Update T)) :
    Option Nat :=
  match updates with
  | [] => none
  | _ =>
    iterMin
      ((updates.map (·.first_timestamp_of_non_finalized_database)).filterMap id)

/-- Minimum of two optional timestamps, absent values ignored. -/
def optionMin : Option Nat → Option Nat → Option Nat
  | none, b => b
  | some a, none => some a
  | some a, some b => some (min a b)

/-- Modelled from the spec: `aggregate.earliest_pending_timestamp()` is the
"min over producers of `earliest_open_timestamp()` (or none)". -/
def earliest_pending_timestamp_spec {T : Type} (updates : List (Update T)) :
    Option Nat :=
  updates.foldr (fun u acc => optionMin u.first_timestamp_of_non_finalized_database acc)
    none

/-! ## Generated `push_to_databases`
(crates/code_generation/src/perception_databases.rs, lines 39-52 and 64-66)

The generated `Databases` struct holds one `Vec<MainOutputs>` per perception
instance; the `BTreeMap<SystemTime, Databases>` is modelled as an association
list from timestamp to a list of per-instance result lists.  `get_mut(..)
.unwrap()` is modelled as an association lookup whose failure (the Rust
panic) makes the whole drain return `none`. -/

/-- One per-timestamp `Databases` value: result list per perception
instance, indexed by instance position. -/
abbrev Entry (T : Type) := List (List T)

/-- Association-list lookup, modelling `BTreeMap::get_mut`. -/
def lookupDb {T : Type} (db : List (Nat × Entry T)) (t : Nat) : Option (Entry T) :=
  match db with
  | [] => none
  | (t', e) :: rest => if t' = t then some e else lookupDb rest t

/-- Replace the entry stored at timestamp `t` (first occurrence). -/
def setDb {T : Type} (db : List (Nat × Entry T)) (t : Nat) (e : Entry T) :
    List (Nat × Entry T) :=
  match db with
  | [] => []
  | (t', e') :: rest => if t' = t then (t', e) :: rest else (t', e') :: setDb rest t e

/-- `entry.#field_name.push(data)`: append `x` to the list of instance `i`. -/
def pushAt {T : Type} (e : Entry T) (i : Nat) (x : T) : Entry T :=
  match e, i with
  | [], _ => []
  | l :: rest, 0 => (l ++ [x]) :: rest
  | l :: rest, i + 1 => l :: pushAt rest i x

/-- The generated per-instance push loop: for each drained item, look up its
timestamp in the databases map, `unwrap()` (a panic — `none` — if absent) and
push the item's data into instance `i`'s field. -/
def pushItems {T : Type} (i : Nat) (items : List (Timestamped T))
    (db : List (Nat × Entry T)) : Option (List (Nat × Entry T)) :=
  match items with
  | [] => some db
  | item :: rest =>
    match lookupDb db item.timestamp with
    | none => none
    | some e => pushItems i rest (setDb db item.timestamp (pushAt e i item.data))

/-- The generated `Updates::push_to_databases`: the per-instance push loops
run in instance order.  A panic in any loop (`none`) aborts the drain. -/
def push_to_databases {T : Type} (updates : List (Update T))
    (db : List (Nat × Entry T)) : Option (List (Nat × Entry T)) :=
  go 0 updates db
where
  /-- Runs the loop of instance `i` and then the remaining instances. -/
  go (i : Nat) : List (Update T) → List (Nat × Entry T) → Option (List (Nat × Entry T))
    | [], db => some db
    | u :: rest, db =>
      match pushItems i u.items db with
      | none => none
      | some db' => go (i + 1) rest db'

/-- The key set of the databases map. -/
def dbKeys {T : Type} (db : List (Nat × Entry T)) : List Nat :=
  db.map Prod.fst

/-! ## Generated module execution (tools/macro_tester/src/main.rs,
`Module::get_required_inputs_are_some` and `Module::get_execution`)

The cycler's own database of main outputs is modelled as a list of optional
values; a module declares the positions of its required inputs and of its
main outputs.  The module's `cycle()` body is an abstract function from the
database to either an error or the produced outputs. -/

/-- The generated main-outputs database: one optional value per field. -/
abbrev Db (V : Type) := List (Option V)

/-- The fields of one generated module that matter for execution gating:
which database positions are `RequiredInput`s and which are `MainOutput`s. -/
structure ModuleDecl where
  requiredInputs : List Nat
  mainOutputs : List Nat
deriving DecidableEq, Repr

/-- The generated `required_inputs_are_some` conjunction:
`own_database.main_outputs.<path>.is_some() && ...`. -/
def requiredInputsAreSome (m : ModuleDecl) {V : Type} (db : Db V) : Bool :=
  m.requiredInputs.all fun i => (db.getD i none).isSome

/-- The generated `else` branch: every main output of the module is set to
`None`. -/
def setOutputsFromNone (m : ModuleDecl) {V : Type} (db : Db V) : Db V :=
  m.mainOutputs.foldl (fun db i => db.set i none) db

/-- The generated success path: every main output is set from the cycle
result (`own_database.main_outputs.#name = main_outputs.#name.value`). -/
def setOutputsFromResult (m : ModuleDecl) {V : Type} (outs : Nat → Option V)
    (db : Db V) : Db V :=
  m.mainOutputs.foldl (fun db i => db.set i (outs i)) db

/-- The generated module execution (`Module::get_execution`): when the module
declares no required input, the generator emits no guard and the module
always runs; otherwise the `required_inputs_are_some` guard selects between
running `cycle()` (propagating its error with `?`) and forcing all main
outputs to `None` without invoking `cycle()`.  The boolean in the result
records whether `cycle()` was invoked. -/
def moduleExecution (m : ModuleDecl) {V E : Type}
    (cycle : Db V → Except E (Nat → Option V)) (db : Db V) :
    Except E (Db V × Bool) :=
  if m.requiredInputs.isEmpty then
    match cycle db with
    | .error e => .error e
    | .ok outs => .ok (setOutputsFromResult m outs db, true)
  else
    if requiredInputsAreSome m db then
      match cycle db with
      | .error e => .error e
      | .ok outs => .ok (setOutputsFromResult m outs db, true)
    else
      .ok (setOutputsFromNone m db, false)

/-! ## Generated cycler start loop (tools/macro_tester/src/main.rs,
`Cycler::get_start_method`)

The generated thread body is
`while !keep_running.is_cancelled() { if let Err(error) = self.cycle() {
keep_running.cancel(); return Err(error); } } Ok(())`.
The externally observable value of `is_cancelled()` at the `n`-th boundary
check is an oracle `flags n` (covering cancellation by other threads), and
the outcome of the `n`-th `cycle()` invocation is an oracle `results n`
(`none` = success).  The loop run is recorded as a list of events; fuel
bounds the recorded length (an empty remainder models a still-running
loop). -/

/-- Observable events of the generated start loop. -/
inductive LEvent (E : Type) where
  | checkFlag (b : Bool)
  | runCycle
  | cancelToken
  | exitOk
  | exitErr (e : E)
deriving DecidableEq, Repr

/-- The generated start loop: check the cancellation flag; if set, return
`Ok(())`; otherwise run one cycle; on cycle error, cancel the token and
return the error; on success, loop. -/
def loopRun {E : Type} (flags : Nat → Bool) (results : Nat → Option E) :
    Nat → Nat → List (LEvent E)
  | 0, _ => []
  | fuel + 1, i =>
    if flags i then
      [.checkFlag true, .exitOk]
    else
      .checkFlag false :: .runCycle ::
        match results i with
        | some e => [.cancelToken, .exitErr e]
        | none => loopRun flags results fuel (i + 1)

/-- Number of `runCycle` events in a loop trace. -/
def countRunCycle {E : Type} (tr : List (LEvent E)) : Nat :=
  tr.countP fun ev => match ev with | .runCycle => true | _ => false

/-- Number of `checkFlag` events in a loop trace. -/
def countCheckFlag {E : Type} (tr : List (LEvent E)) : Nat :=
  tr.countP fun ev => match ev with | .checkFlag _ => true | _ => false

/-! ## Generated cycle method (tools/macro_tester/src/main.rs,
`Cycler::get_cycle_method`)

The generated `cycle()` body is
`{ let mut own_database = self.own_writer.next();
   { let configuration = ...; <first module> }
   self.own_producer.announce();
   { let configuration = ...; <remaining modules> }
   self.own_producer.finalize(own_database.main_outputs.clone()); }`.
Module executions propagate errors with `?`, which returns early from
`cycle()`; dropping `own_database` on any exit releases the write handle.
The outcome of each module execution is an oracle (`none` = success); the
run is recorded as a list of events plus the propagated error, if any. -/

/-- Observable events of one generated `cycle()` invocation. -/
inductive CEvent (E : Type) where
  | openWriter
  | runStage (i : Nat)
  | announce
  | finalize
  | releaseWriter
deriving DecidableEq, Repr

/-- Events of the remaining (post-`announce`) module executions starting at
stage index `start`: each module runs in order until one returns an error,
which `?` propagates. -/
def stagesEvents {E : Type} (results : List (Option E)) (start : Nat) :
    List (CEvent E) × Option E :=
  match results with
  | [] => ([], none)
  | r :: rest =>
    match r with
    | some e => ([.runStage start], some e)
    | none =>
      let (evs, err) := stagesEvents rest (start + 1)
      (.runStage start :: evs, err)

/-- One generated `cycle()` invocation, given the outcome of the first
module and of each remaining module (the generator rejects cyclers with no
module, so the first module always exists).  An error in the first module
returns before `announce`; an error in a remaining module returns after
`announce` but before `finalize`; in all cases the write handle is released
(the guard is dropped) on exit. -/
def cycleEvents {E : Type} (first : Option E) (remaining : List (Option E)) :
    List (CEvent E) × Option E :=
  match first with
  | some e => ([.openWriter, .runStage 0, .releaseWriter], some e)
  | none =>
    match stagesEvents remaining 1 with
    | (evs, some e) =>
      (.openWriter :: .runStage 0 :: .announce :: (evs ++ [.releaseWriter]), some e)
    | (evs, none) =>
      (.openWriter :: .runStage 0 :: .announce ::
        (evs ++ [.finalize, .releaseWriter]), none)

/-- The event trace of a sequence of executed cycles, each given by the
outcomes of its first and remaining modules. -/
def cyclesTrace {E : Type} (cycles : List (Option E × List (Option E))) :
    List (CEvent E) :=
  (cycles.map fun c => (cycleEvents c.1 c.2).1).flatten

/-- Announce/finalize alternation checker: `b` records whether an announce
is currently open; `none` signals a violation (an announce while one is
open, or a finalize with none open).  The claim "each announce is followed
by exactly one finalize before any subsequent announce" over a trace `t` is
`altState t false = some false`. -/
def altState {E : Type} : List (CEvent E) → Bool → Option Bool
  | [], b => some b
  | .announce :: rest, false => altState rest true
  | .announce :: _, true => none
  | .finalize :: rest, true => altState rest false
  | .finalize :: _, false => none
  | _ :: rest, b => altState rest b

/-- Checks that every `releaseWriter` in the trace is preceded by a
`finalize`; `seen` records whether a `finalize` occurred already. -/
def releaseAfterFinalize {E : Type} : List (CEvent E) → Bool → Bool
  | [], _ => true
  | .finalize :: rest, _ => releaseAfterFinalize rest true
  | .releaseWriter :: rest, seen => seen && releaseAfterFinalize rest seen
  | _ :: rest, seen => releaseAfterFinalize rest seen

/-! ## Parameter storage (crates/communication/src/server/parameters/storage.rs,
`handle_request`, `StorageRequest::UpdateParameter` arm)

The task state is the local `parameters` copy, the snapshot published
through the `parameters_writer` buffer, the number of `notify_one()` calls
on `parameters_changed`, and the responses sent so far.
`Parameters::deserialize_path` is an abstract function from the current
parameters, the path and the payload to either an error or the updated
parameters. -/

/-- State observable around one `UpdateParameter` request. -/
structure Storage (P : Type) where
  parameters : P
  published : P
  notifyCount : Nat
  responses : List (Nat × Except String Unit)

/-- The `UpdateParameter` arm of `handle_request`: on deserialization
failure, respond with the error and return — no write to the parameters
buffer, no notification; on success, clone the updated parameters into the
writer slot, notify, and respond `Ok`. -/
def handleUpdateParameter {P D : Type}
    (deserialize_path : P → String → D → Except String P)
    (id : Nat) (path : String) (data : D) (s : Storage P) : Storage P :=
  match deserialize_path s.parameters path data with
  | .error error =>
    { s with
      responses := s.responses ++ [(id, .error ("failed to deserialize: " ++ error))] }
  | .ok parameters =>
    { parameters := parameters
      published := parameters
      notifyCount := s.notifyCount + 1
      responses := s.responses ++ [(id, .ok ())] }

/-! ## Slotted state buffer (spec section 4.1)

Modelled from the spec: the `framework::n_tuple_buffer` implementation is
not among the analysed sources (crates/framework/src/lib.rs only re-exports
it), so the buffer is modelled from spec sections 3 and 4.1: N slots, an
atomically switched current index, readers holding a slot; `write()`
returns a handle over a slot not held by any reader and distinct from the
current one, and on release that slot becomes current; `read()` returns a
handle over the slot current at call time.  Steps are atomic, so a torn
write is not representable; read-stability is the proved content. -/

/-- Buffer state: slot contents, index of the current slot, and the set of
live read handles as (reader id, held slot index) pairs. -/
structure Buf (α : Type) where
  slots : List α
  current : Nat
  readers : List (Nat × Nat)
deriving DecidableEq, Repr

/-- Labels of the atomic buffer operations. -/
inductive BAction (α : Type) where
  | read (rid : Nat)
  | release (rid : Nat)
  | write (i : Nat) (v : α)
deriving DecidableEq, Repr

/-- One atomic buffer step.  A `read` acquires a handle on the current
slot; a `release` drops a reader's handle; a `write` (open + publish)
stores into a slot held by no reader and distinct from current, then makes
it current. -/
inductive BStep {α : Type} : Buf α → BAction α → Buf α → Prop where
  | read (s : Buf α) (rid : Nat) (h : ∀ p ∈ s.readers, p.1 ≠ rid) :
      BStep s (.read rid) { s with readers := (rid, s.current) :: s.readers }
  | release (s : Buf α) (rid : Nat) :
      BStep s (.release rid) { s with readers := s.readers.filter (fun p => p.1 ≠ rid) }
  | write (s : Buf α) (i : Nat) (v : α) (hlen : i < s.slots.length)
      (hfree : ∀ p ∈ s.readers, p.2 ≠ i) (hcur : i ≠ s.current) :
      BStep s (.write i v) { slots := s.slots.set i v, current := i, readers := s.readers }

/-- A finite interleaving of buffer operations, recorded as an action
trace. -/
inductive BSteps {α : Type} : Buf α → List (BAction α) → Buf α → Prop where
  | refl (s : Buf α) : BSteps s [] s
  | step {s t u : Buf α} {a : BAction α} {tr : List (BAction α)} :
      BStep s a t → BSteps t tr u → BSteps s (a :: tr) u

/-! ## Theorems -/

theorem iterMin_filterMap_eq_spec {T : Type} (us : List (Update T)) :
    iterMin ((us.map (·.first_timestamp_of_non_finalized_database)).filterMap id) =
      earliest_pending_timestamp_spec us := by
  induction us with
  | nil => rfl
  | cons u rest ih =>
    have hspec : earliest_pending_timestamp_spec (u :: rest) =
        optionMin u.first_timestamp_of_non_finalized_database
          (earliest_pending_timestamp_spec rest) := rfl
    rw [hspec]
    rcases h : u.first_timestamp_of_non_finalized_database with _ | t
    · simp only [List.map_cons, List.filterMap_cons, h, id_eq]
      rw [ih]
      rfl
    · simp only [List.map_cons, List.filterMap_cons, h, id_eq, iterMin]
      rw [ih]
      cases hsr : earliest_pending_timestamp_spec rest with
      | none => rfl
      | some m => rfl

theorem spec_eq_none_iff {T : Type} (us : List (Update T)) :
    earliest_pending_timestamp_spec us = none ↔
      ∀ u ∈ us, u.first_timestamp_of_non_finalized_database = none := by
  induction us with
  | nil => simp [earliest_pending_timestamp_spec]
  | cons u rest ih =>
    simp only [earliest_pending_timestamp_spec, List.foldr_cons, List.mem_cons]
    constructor
    · intro h
      rcases hu : u.first_timestamp_of_non_finalized_database with _ | t
      · rw [hu] at h
        simp only [optionMin] at h
        intro v hv
        rcases hv with hv | hv
        · rw [hv]; exact hu
        · exact (ih.mp h) v hv
      · rw [hu] at h
        rcases hr : rest.foldr (fun u acc =>
            optionMin u.first_timestamp_of_non_finalized_database acc) none with _ | m
        · rw [hr] at h; simp [optionMin] at h
        · rw [hr] at h; simp [optionMin] at h
    · intro h
      have hu : u.first_timestamp_of_non_finalized_database = none := h u (Or.inl rfl)
      rw [hu]
      simp only [optionMin]
      exact ih.mpr fun v hv => h v (Or.inr hv)

/-- C4: the generated `first_timestamp_of_temporary_databases` equals the
spec's "min over producers of `earliest_open_timestamp()` (or none)", and is
`none` exactly when there are no perception producers or no producer has an
open (announced, not finalized) timestamp. -/
theorem first_timestamp_is_min_over_producers {T : Type} (us : List (Update T)) :
    first_timestamp_of_temporary_databases us = earliest_pending_timestamp_spec us ∧
    (first_timestamp_of_temporary_databases us = none ↔
      us = [] ∨ ∀ u ∈ us, u.first_timestamp_of_non_finalized_database = none) := by
  have heq : first_timestamp_of_temporary_databases us =
      earliest_pending_timestamp_spec us := by
    cases us with
    | nil => rfl
    | cons u rest => exact iterMin_filterMap_eq_spec (u :: rest)
  refine ⟨heq, ?_⟩
  rw [heq, spec_eq_none_iff]
  constructor
  · exact Or.inr
  · rintro (h | h)
    · subst h; simp
    · exact h

/-- C9: when deserialization of an `UpdateParameter` payload fails, the
storage task replies with an `Err` response and leaves both the published
parameter snapshot and the `parameters_changed` notification count
untouched. -/
theorem failed_update_preserves_snapshot {P D : Type}
    (deserialize_path : P → String → D → Except String P)
    (id : Nat) (path : String) (data : D) (s : Storage P) (error : String)
    (herr : deserialize_path s.parameters path data = .error error) :
    (handleUpdateParameter deserialize_path id path data s).published = s.published ∧
    (handleUpdateParameter deserialize_path id path data s).notifyCount = s.notifyCount ∧
    (handleUpdateParameter deserialize_path id path data s).responses =
      s.responses ++ [(id, .error ("failed to deserialize: " ++ error))] := by
  simp [handleUpdateParameter, herr]

/-- Witness for C9 at a concrete always-failing deserializer. -/
theorem failed_update_preserves_snapshot_witness :
    (handleUpdateParameter (fun (_ : Nat) (_ : String) (_ : Nat) =>
          (Except.error "bad" : Except String Nat)) 1 "a" 0 ⟨7, 7, 0, []⟩).published = 7 ∧
    (handleUpdateParameter (fun (_ : Nat) (_ : String) (_ : Nat) =>
          (Except.error "bad" : Except String Nat)) 1 "a" 0 ⟨7, 7, 0, []⟩).notifyCount = 0 ∧
    (handleUpdateParameter (fun (_ : Nat) (_ : String) (_ : Nat) =>
          (Except.error "bad" : Except String Nat)) 1 "a" 0 ⟨7, 7, 0, []⟩).responses =
      [] ++ [(1, .error ("failed to deserialize: " ++ "bad"))] :=
  failed_update_preserves_snapshot
    (fun (_ : Nat) (_ : String) (_ : Nat) => (Except.error "bad" : Except String Nat))
    1 "a" 0 ⟨7, 7, 0, []⟩ "bad" rfl

/-- C10: for an `Image` whose buffer length is `width_422 * height`,
`try_at` returns `some` exactly on coordinates inside `width() × height()`
(its internal indexing never reaches an out-of-range index, so it never
panics), and the returned pixel is the one `at` returns. -/
theorem try_at_some_iff_in_bounds (img : Image) (x y : Nat)
    (hlen : img.buffer.length = img.width_422 * img.height) :
    (x < img.width ∧ y < img.height →
      ∃ p, img.try_at x y = some p ∧ img.at' x y = some p) ∧
    (¬(x < img.width ∧ y < img.height) → img.try_at x y = none) := by
  constructor
  · rintro ⟨hx, hy⟩
    have hw : x / 2 < img.width_422 := by
      apply Nat.div_lt_of_lt_mul
      simpa [Image.width, Nat.mul_comm] using hx
    have hidx : img.coordinates_to_buffer_index x y < img.buffer.length := by
      rw [hlen]
      show y * img.width_422 + x / 2 < img.width_422 * img.height
      calc y * img.width_422 + x / 2 < (y + 1) * img.width_422 := by
            rw [Nat.succ_mul]; omega
        _ ≤ img.height * img.width_422 := Nat.mul_le_mul_right _ hy
        _ = img.width_422 * img.height := Nat.mul_comm _ _
    obtain ⟨p, hp⟩ : ∃ p,
        img.buffer.get? (img.coordinates_to_buffer_index x y) = some p :=
      ⟨img.buffer.get ⟨_, hidx⟩, List.get?_eq_get hidx⟩
    refine ⟨⟨if x % 2 = 0 then p.y1 else p.y2, p.cb, p.cr⟩, ?_, ?_⟩
    · unfold Image.try_at
      rw [if_neg (by omega : ¬(x ≥ img.width ∨ y ≥ img.height)), hp]
    · unfold Image.at'
      rw [hp]
  · intro h
    unfold Image.try_at
    rw [if_pos (by omega : x ≥ img.width ∨ y ≥ img.height)]

/-- Witness for C10 at a concrete one-pixel-pair image. -/
theorem try_at_witness :
    ∃ p, Image.try_at ⟨[⟨1, 2, 3, 4⟩], 1, 1⟩ 1 0 = some p ∧
      Image.at' ⟨[⟨1, 2, 3, 4⟩], 1, 1⟩ 1 0 = some p :=
  (try_at_some_iff_in_bounds ⟨[⟨1, 2, 3, 4⟩], 1, 1⟩ 1 0 rfl).1 (by decide)

theorem dbKeys_setDb {T : Type} (db : List (Nat × Entry T)) (t : Nat) (e : Entry T) :
    dbKeys (setDb db t e) = dbKeys db := by
  induction db with
  | nil => rfl
  | cons p rest ih =>
    obtain ⟨t', e'⟩ := p
    by_cases h : t' = t
    · simp [setDb, h, dbKeys]
    · simp [setDb, h, dbKeys]
      exact ih

theorem lookupDb_eq_none_iff {T : Type} (db : List (Nat × Entry T)) (t : Nat) :
    lookupDb db t = none ↔ t ∉ dbKeys db := by
  induction db with
  | nil => simp [lookupDb, dbKeys]
  | cons p rest ih =>
    obtain ⟨t', e'⟩ := p
    have hk : dbKeys ((t', e') :: rest) = t' :: dbKeys rest := rfl
    rw [hk]
    by_cases h : t' = t
    · subst h
      simp [lookupDb]
    · simp only [lookupDb, if_neg h, ih, List.mem_cons]
      constructor
      · intro hn hor
        rcases hor with heq | hmem
        · exact h heq.symm
        · exact hn hmem
      · intro hn hm
        exact hn (Or.inr hm)

theorem pushItems_keys {T : Type} (i : Nat) (items : List (Timestamped T)) :
    ∀ (db db' : List (Nat × Entry T)), pushItems i items db = some db' →
      dbKeys db' = dbKeys db := by
  induction items with
  | nil =>
    intro db db' h
    simp only [pushItems] at h
    cases h
    rfl
  | cons item rest ih =>
    intro db db' h
    simp only [pushItems] at h
    cases hl : lookupDb db item.timestamp with
    | none => rw [hl] at h; cases h
    | some e =>
      rw [hl] at h
      have := ih _ _ h
      rw [this, dbKeys_setDb]

theorem pushItems_eq_none_iff {T : Type} (i : Nat) (items : List (Timestamped T)) :
    ∀ (db : List (Nat × Entry T)), pushItems i items db = none ↔
      ∃ it ∈ items, lookupDb db it.timestamp = none := by
  induction items with
  | nil => intro db; simp [pushItems]
  | cons item rest ih =>
    intro db
    simp only [pushItems]
    cases hl : lookupDb db item.timestamp with
    | none =>
      simp only [true_iff]
      exact ⟨item, List.mem_cons_self _ _, hl⟩
    | some e =>
      rw [ih]
      constructor
      · rintro ⟨it, hit, hnone⟩
        refine ⟨it, List.mem_cons_of_mem _ hit, ?_⟩
        rw [lookupDb_eq_none_iff] at hnone ⊢
        rwa [dbKeys_setDb] at hnone
      · rintro ⟨it, hit, hnone⟩
        rcases List.mem_cons.mp hit with heq | hmem
        · subst heq
          rw [hl] at hnone
          cases hnone
        · refine ⟨it, hmem, ?_⟩
          rw [lookupDb_eq_none_iff] at hnone ⊢
          rwa [dbKeys_setDb]

theorem push_go_keys {T : Type} (updates : List (Update T)) :
    ∀ (i : Nat) (db db' : List (Nat × Entry T)),
      push_to_databases.go i updates db = some db' → dbKeys db' = dbKeys db := by
  induction updates with
  | nil =>
    intro i db db' h
    simp only [push_to_databases.go] at h
    cases h
    rfl
  | cons u rest ih =>
    intro i db db' h
    simp only [push_to_databases.go] at h
    cases hp : pushItems i u.items db with
    | none => rw [hp] at h; cases h
    | some db'' =>
      rw [hp] at h
      rw [ih _ _ _ h, pushItems_keys i u.items db db'' hp]

theorem push_go_eq_none_iff {T : Type} (updates : List (Update T)) :
    ∀ (i : Nat) (db : List (Nat × Entry T)),
      push_to_databases.go i updates db = none ↔
        ∃ u ∈ updates, ∃ it ∈ u.items, lookupDb db it.timestamp = none := by
  induction updates with
  | nil => intro i db; simp [push_to_databases.go]
  | cons u rest ih =>
    intro i db
    simp only [push_to_databases.go]
    cases hp : pushItems i u.items db with
    | none =>
      simp only [true_iff]
      exact ⟨u, List.mem_cons_self _ _, (pushItems_eq_none_iff i u.items db).mp hp⟩
    | some db'' =>
      rw [ih]
      have hkeys : dbKeys db'' = dbKeys db := pushItems_keys i u.items db db'' hp
      constructor
      · rintro ⟨v, hv, it, hit, hnone⟩
        refine ⟨v, List.mem_cons_of_mem _ hv, it, hit, ?_⟩
        rw [lookupDb_eq_none_iff] at hnone ⊢
        rwa [hkeys] at hnone
      · rintro ⟨v, hv, it, hit, hnone⟩
        rcases List.mem_cons.mp hv with heq | hmem
        · subst heq
          exfalso
          have : pushItems i v.items db = none :=
            (pushItems_eq_none_iff i v.items db).mpr ⟨it, hit, hnone⟩
          rw [this] at hp
          cases hp
        · refine ⟨v, hmem, it, hit, ?_⟩
          rw [lookupDb_eq_none_iff] at hnone ⊢
          rwa [hkeys]

/-- C1: the generated `push_to_databases` drain panics (`none`) exactly when
some drained item carries a timestamp with no pre-existing entry in the
per-timestamp databases map, and when it succeeds it leaves the key set of
the map unchanged — a missing entry is never silently dropped and never
silently created. -/
theorem push_to_databases_panics_on_missing_entry {T : Type}
    (updates : List (Update T)) (db : List (Nat × Entry T)) :
    (push_to_databases updates db = none ↔
      ∃ u ∈ updates, ∃ it ∈ u.items, lookupDb db it.timestamp = none) ∧
    (∀ db', push_to_databases updates db = some db' → dbKeys db' = dbKeys db) :=
  ⟨push_go_eq_none_iff updates 0 db, fun db' h => push_go_keys updates 0 db db' h⟩

/-- Witness for C1: a drain into a present timestamp succeeds and preserves
the key set; the same drain into an empty map panics. -/
theorem push_to_databases_witness :
    push_to_databases [⟨[⟨5, (7 : Nat)⟩], none⟩] [(5, [[]])] = some [(5, [[7]])] ∧
    dbKeys ([(5, ([[7]] : Entry Nat))]) = dbKeys [(5, ([[]] : Entry Nat))] ∧
    push_to_databases [⟨[⟨5, (7 : Nat)⟩], none⟩] [] = none :=
  ⟨by decide,
   (push_to_databases_panics_on_missing_entry [⟨[⟨5, (7 : Nat)⟩], none⟩]
       [(5, [[]])]).2 [(5, [[7]])] (by decide),
   (push_to_databases_panics_on_missing_entry [⟨[⟨5, (7 : Nat)⟩], none⟩] []).1.mpr
     ⟨⟨[⟨5, 7⟩], none⟩, by decide, ⟨5, 7⟩, by decide, by decide⟩⟩

theorem getD_set_self {V : Type} :
    ∀ (db : Db V) (j : Nat) (v : Option V),
      (db.set j v).getD j none = if j < db.length then v else none := by
  intro db
  induction db with
  | nil => intro j v; simp
  | cons a rest ih =>
    intro j v
    cases j with
    | zero => simp
    | succ j => simpa using ih j v

theorem getD_set_ne {V : Type} :
    ∀ (db : Db V) (i j : Nat) (v : Option V), i ≠ j →
      (db.set j v).getD i none = db.getD i none := by
  intro db
  induction db with
  | nil => intro i j v _; simp
  | cons a rest ih =>
    intro i j v h
    cases j with
    | zero =>
      cases i with
      | zero => exact absurd rfl h
      | succ i => simp
    | succ j =>
      cases i with
      | zero => simp
      | succ i => simpa using ih i j v (fun he => h (by rw [he]))

theorem getD_foldl_set_none {V : Type} (l : List Nat) :
    ∀ (db : Db V) (i : Nat),
      (l.foldl (fun d j => d.set j none) db).getD i none =
        if i ∈ l then none else db.getD i none := by
  induction l with
  | nil => intro db i; simp
  | cons j rest ih =>
    intro db i
    simp only [List.foldl_cons, ih, List.mem_cons]
    by_cases hir : i ∈ rest
    · simp [hir]
    · by_cases hij : i = j
      · subst hij
        simp only [hir, if_false, true_or, if_pos]
        rw [getD_set_self]
        split <;> rfl
      · simp only [hir, if_false]
        rw [if_neg (by tauto), getD_set_ne db i j none hij]

/-- C2: generated stage gating.  When a stage declares required inputs and
any of them is absent in the cycler's database, the stage's `cycle()` is not
invoked, the execution still succeeds (`ok`), and every main output of the
stage is forced to `None`.  When all required inputs are present, the stage
runs normally: its `cycle()` result (error or outputs) determines the
outcome. -/
theorem required_input_gating (m : ModuleDecl) {V E : Type}
    (cycle : Db V → Except E (Nat → Option V)) (db : Db V) :
    ((∃ i ∈ m.requiredInputs, db.getD i none = none) →
      moduleExecution m cycle db = .ok (setOutputsFromNone m db, false) ∧
      ∀ i ∈ m.mainOutputs, (setOutputsFromNone m db).getD i none = none) ∧
    ((∀ i ∈ m.requiredInputs, (db.getD i none).isSome) →
      moduleExecution m cycle db =
        match cycle db with
        | .error e => .error e
        | .ok outs => .ok (setOutputsFromResult m outs db, true)) := by
  constructor
  · rintro ⟨i, hi, hnone⟩
    have hne : ¬ m.requiredInputs.isEmpty := by
      cases hreq : m.requiredInputs with
      | nil => rw [hreq] at hi; exact absurd hi (List.not_mem_nil i)
      | cons a l => simp
    have hguard : ¬ requiredInputsAreSome m db = true := by
      intro hall
      have := List.all_eq_true.mp hall i hi
      rw [hnone] at this
      simp at this
    constructor
    · unfold moduleExecution
      rw [if_neg hne, if_neg hguard]
    · intro o ho
      simp only [setOutputsFromNone, getD_foldl_set_none]
      rw [if_pos ho]
  · intro hall
    have hguard : requiredInputsAreSome m db = true :=
      List.all_eq_true.mpr fun i hi => hall i hi
    unfold moduleExecution
    by_cases hempty : m.requiredInputs.isEmpty
    · rw [if_pos hempty]
    · rw [if_neg hempty, if_pos hguard]

/-- Witness for C2: a stage whose single required input (position 0) is
absent is skipped, succeeds, and its main output (position 1) is forced
absent; the same stage runs when the input is present. -/
theorem required_input_gating_witness :
    (moduleExecution ⟨[0], [1]⟩
        (fun _ : Db Nat => (Except.ok (fun _ : Nat => some (9 : Nat)) : Except Unit (Nat → Option Nat))) [none, some 3] =
      .ok (setOutputsFromNone ⟨[0], [1]⟩ [none, some 3], false) ∧
      ∀ i ∈ (⟨[0], [1]⟩ : ModuleDecl).mainOutputs,
        (setOutputsFromNone ⟨[0], [1]⟩ ([none, some 3] : Db Nat)).getD i none = none) ∧
    moduleExecution ⟨[0], [1]⟩
        (fun _ : Db Nat => (Except.ok (fun _ : Nat => some (9 : Nat)) : Except Unit (Nat → Option Nat))) [some 2, some 3] =
      match (Except.ok (fun _ : Nat => some (9 : Nat)) : Except Unit (Nat → Option Nat)) with
      | .error e => .error e
      | .ok outs => .ok (setOutputsFromResult ⟨[0], [1]⟩ outs [some 2, some 3], true) :=
  ⟨(required_input_gating ⟨[0], [1]⟩
      (fun _ : Db Nat => (Except.ok (fun _ : Nat => some (9 : Nat)) : Except Unit (Nat → Option Nat))) [none, some 3]).1
      ⟨0, by decide, rfl⟩,
   (required_input_gating ⟨[0], [1]⟩
      (fun _ : Db Nat => (Except.ok (fun _ : Nat => some (9 : Nat)) : Except Unit (Nat → Option Nat))) [some 2, some 3]).2
      (by decide)⟩

theorem loopRun_skip {E : Type} (flags : Nat → Bool) (results : Nat → Option E) :
    ∀ (i s fuel : Nat),
      (∀ j, j < i → flags (s + j) = false ∧ results (s + j) = none) →
      i ≤ fuel →
      loopRun flags results fuel s =
        (List.replicate i
            ([LEvent.checkFlag false, LEvent.runCycle] : List (LEvent E))).flatten
          ++ loopRun flags results (fuel - i) (s + i) := by
  intro i
  induction i with
  | zero => intro s fuel _ _; simp
  | succ i ih =>
    intro s fuel h hle
    cases fuel with
    | zero => omega
    | succ f =>
      have h0 := h 0 (Nat.succ_pos i)
      rw [Nat.add_zero] at h0
      have hunfold : loopRun flags results (f + 1) s =
          LEvent.checkFlag false :: LEvent.runCycle :: loopRun flags results f (s + 1) := by
        simp [loopRun, h0.1, h0.2]
      have hshift : ∀ j, j < i → flags (s + 1 + j) = false ∧ results (s + 1 + j) = none := by
        intro j hj
        have e : s + 1 + j = s + (j + 1) := by omega
        rw [e]
        exact h (j + 1) (by omega)
      rw [hunfold, ih (s + 1) f hshift (by omega)]
      have e1 : f + 1 - (i + 1) = f - i := by omega
      have e2 : s + (i + 1) = s + 1 + i := by omega
      rw [e1, e2]
      simp [List.replicate_succ]

theorem countRunCycle_append {E : Type} (t1 t2 : List (LEvent E)) :
    countRunCycle (t1 ++ t2) = countRunCycle t1 + countRunCycle t2 := by
  simp [countRunCycle, List.countP_append]

theorem countCheckFlag_append {E : Type} (t1 t2 : List (LEvent E)) :
    countCheckFlag (t1 ++ t2) = countCheckFlag t1 + countCheckFlag t2 := by
  simp [countCheckFlag, List.countP_append]

theorem countRunCycle_flatten_replicate {E : Type} (i : Nat) :
    countRunCycle
      ((List.replicate i
          ([LEvent.checkFlag false, LEvent.runCycle] : List (LEvent E))).flatten) = i := by
  induction i with
  | zero => rfl
  | succ i ih =>
    rw [List.replicate_succ]
    have hfl : (([LEvent.checkFlag false, LEvent.runCycle] : List (LEvent E)) ::
        List.replicate i [LEvent.checkFlag false, LEvent.runCycle]).flatten =
        [LEvent.checkFlag false, LEvent.runCycle] ++
          (List.replicate i
            ([LEvent.checkFlag false, LEvent.runCycle] : List (LEvent E))).flatten := rfl
    rw [hfl, countRunCycle_append, ih]
    rw [show countRunCycle ([LEvent.checkFlag false, LEvent.runCycle] : List (LEvent E)) = 1
      from rfl]
    omega

theorem countCheckFlag_flatten_replicate {E : Type} (i : Nat) :
    countCheckFlag
      ((List.replicate i
          ([LEvent.checkFlag false, LEvent.runCycle] : List (LEvent E))).flatten) = i := by
  induction i with
  | zero => rfl
  | succ i ih =>
    rw [List.replicate_succ]
    have hfl : (([LEvent.checkFlag false, LEvent.runCycle] : List (LEvent E)) ::
        List.replicate i [LEvent.checkFlag false, LEvent.runCycle]).flatten =
        [LEvent.checkFlag false, LEvent.runCycle] ++
          (List.replicate i
            ([LEvent.checkFlag false, LEvent.runCycle] : List (LEvent E))).flatten := rfl
    rw [hfl, countCheckFlag_append, ih]
    rw [show countCheckFlag ([LEvent.checkFlag false, LEvent.runCycle] : List (LEvent E)) = 1
      from rfl]
    omega

/-- C3: when the `i`-th cycle of the generated start loop fails (the flag
was unset at every boundary up to then and all earlier cycles succeeded),
the thread cancels the process-wide token, returns the error, and
terminates: the trace ends with `cancelToken` then `exitErr`, and the
failed cycle ran exactly once — `i + 1` cycle runs in total, no retry and no
further cycle. -/
theorem stage_error_cancels_and_terminates {E : Type} (flags : Nat → Bool)
    (results : Nat → Option E) (i fuel : Nat) (e : E)
    (hflags : ∀ j, j ≤ i → flags j = false)
    (hok : ∀ j, j < i → results j = none)
    (herr : results i = some e)
    (hfuel : i < fuel) :
    loopRun flags results fuel 0 =
      (List.replicate i
          ([LEvent.checkFlag false, LEvent.runCycle] : List (LEvent E))).flatten
        ++ [.checkFlag false, .runCycle, .cancelToken, .exitErr e] ∧
    countRunCycle (loopRun flags results fuel 0) = i + 1 := by
  have hskip := loopRun_skip flags results i 0 fuel
    (fun j hj => ⟨by simpa using hflags j (le_of_lt hj), by simpa using hok j hj⟩)
    (le_of_lt hfuel)
  have hrem : loopRun flags results (fuel - i) (0 + i) =
      [LEvent.checkFlag false, .runCycle, .cancelToken, .exitErr e] := by
    have hf : fuel - i = (fuel - i - 1) + 1 := by omega
    rw [hf, Nat.zero_add]
    simp [loopRun, hflags i le_rfl, herr]
  rw [hskip, hrem]
  refine ⟨rfl, ?_⟩
  rw [countRunCycle_append, countRunCycle_flatten_replicate]
  rfl

/-- Witness for C3: the second cycle fails; the loop cancels and exits with
the error after exactly two cycle runs. -/
theorem stage_error_witness :
    loopRun (fun _ => false) (fun j => if j = 1 then some () else none) 3 0 =
      (List.replicate 1
          ([LEvent.checkFlag false, LEvent.runCycle] : List (LEvent Unit))).flatten
        ++ [.checkFlag false, .runCycle, .cancelToken, .exitErr ()] ∧
    countRunCycle
      (loopRun (fun _ => false) (fun j => if j = 1 then some () else none) 3 0) = 2 :=
  stage_error_cancels_and_terminates (fun _ => false)
    (fun j => if j = 1 then some () else none) 1 3 ()
    (fun _ _ => rfl)
    (fun j hj => by
      have hj0 : j = 0 := by omega
      subst hj0
      rfl)
    rfl
    (by omega)

/-- C6: every cycler checks the cancellation flag exactly once per cycle
boundary.  If the flag is first observed set at boundary `i` (all earlier
boundaries saw it unset and all earlier cycles succeeded), the loop ran
exactly `i` cycles — one flag check before each, plus the final check — and
exits cleanly with `Ok`; no further cycle starts after the flag is set, and
no check happens inside a cycle. -/
theorem cancellation_checked_once_per_cycle {E : Type} (flags : Nat → Bool)
    (results : Nat → Option E) (i fuel : Nat)
    (hrun : ∀ j, j < i → flags j = false ∧ results j = none)
    (hstop : flags i = true)
    (hfuel : i < fuel) :
    loopRun flags results fuel 0 =
      (List.replicate i
          ([LEvent.checkFlag false, LEvent.runCycle] : List (LEvent E))).flatten
        ++ [.checkFlag true, .exitOk] ∧
    countRunCycle (loopRun flags results fuel 0) = i ∧
    countCheckFlag (loopRun flags results fuel 0) = i + 1 := by
  have hskip := loopRun_skip flags results i 0 fuel
    (fun j hj => ⟨by simpa using (hrun j hj).1, by simpa using (hrun j hj).2⟩)
    (le_of_lt hfuel)
  have hrem : loopRun flags results (fuel - i) (0 + i) =
      [LEvent.checkFlag true, .exitOk] := by
    have hf : fuel - i = (fuel - i - 1) + 1 := by omega
    rw [hf, Nat.zero_add]
    simp [loopRun, hstop]
  rw [hskip, hrem]
  refine ⟨rfl, ?_, ?_⟩
  · rw [countRunCycle_append, countRunCycle_flatten_replicate]
    rfl
  · rw [countCheckFlag_append, countCheckFlag_flatten_replicate]
    rfl

/-- Witness for C6: the flag is set externally at the second boundary; the
loop runs one cycle, checks the flag twice in total, and exits cleanly. -/
theorem cancellation_checked_witness :
    loopRun (fun j => j == 1) (fun _ : Nat => (none : Option Unit)) 3 0 =
      (List.replicate 1
          ([LEvent.checkFlag false, LEvent.runCycle] : List (LEvent Unit))).flatten
        ++ [.checkFlag true, .exitOk] ∧
    countRunCycle (loopRun (fun j => j == 1) (fun _ : Nat => (none : Option Unit)) 3 0) = 1 ∧
    countCheckFlag (loopRun (fun j => j == 1) (fun _ : Nat => (none : Option Unit)) 3 0) = 2 :=
  cancellation_checked_once_per_cycle (fun j => j == 1)
    (fun _ : Nat => (none : Option Unit)) 1 3
    (fun j hj => by
      have hj0 : j = 0 := by omega
      subst hj0
      exact ⟨rfl, rfl⟩)
    rfl
    (by omega)

theorem stagesEvents_all_ok {E : Type} :
    ∀ (k s : Nat),
      stagesEvents (List.replicate k (none : Option E)) s =
        ((List.range' s k).map CEvent.runStage, none) := by
  intro k
  induction k with
  | zero => intro s; rfl
  | succ k ih =>
    intro s
    rw [List.replicate_succ]
    simp only [stagesEvents]
    rw [ih (s + 1)]
    simp [List.range']

theorem cycleEvents_all_ok {E : Type} (remaining : List (Option E))
    (hrest : ∀ r ∈ remaining, r = none) :
    cycleEvents (none : Option E) remaining =
      (CEvent.openWriter :: CEvent.runStage 0 :: CEvent.announce ::
        (((List.range' 1 remaining.length).map CEvent.runStage) ++
          [CEvent.finalize, CEvent.releaseWriter]), none) := by
  obtain ⟨k, rfl⟩ : ∃ k, remaining = List.replicate k (none : Option E) :=
    ⟨remaining.length, List.eq_replicate_of_mem hrest⟩
  simp only [cycleEvents, stagesEvents_all_ok, List.length_replicate]

theorem altState_append {E : Type} :
    ∀ (t1 t2 : List (CEvent E)) (b : Bool),
      altState (t1 ++ t2) b = (altState t1 b).bind fun b' => altState t2 b' := by
  intro t1
  induction t1 with
  | nil => intro t2 b; rfl
  | cons e rest ih =>
    intro t2 b
    cases e <;> cases b <;> simp [altState, ih]

theorem altState_map_runStage {E : Type} :
    ∀ (l : List Nat) (b : Bool),
      altState ((l.map CEvent.runStage : List (CEvent E))) b = some b := by
  intro l
  induction l with
  | nil => intro b; rfl
  | cons i t ih => intro b; simp [altState, ih]

theorem raf_map_runStage {E : Type} :
    ∀ (l : List Nat) (rest : List (CEvent E)) (b : Bool),
      releaseAfterFinalize ((l.map CEvent.runStage) ++ rest) b =
        releaseAfterFinalize rest b := by
  intro l
  induction l with
  | nil => intro rest b; rfl
  | cons i t ih => intro rest b; simp [releaseAfterFinalize, ih]

/-- C5 counterexample: a cycle whose second module fails issues an
`announce` that is never matched by a `finalize` — the early `?` return of
the generated `cycle()` skips `finalize`, so "each announce is followed by
exactly one finalize, never zero" is false for this executed sequence of
cycles. -/
theorem announce_without_finalize_on_stage_error :
    altState (cyclesTrace [((none : Option Unit), [some ()])]) false ≠ some false := by
  decide

/-- C5 (amended): over every sequence of executed cycles in which every
stage succeeds, each `announce` on the producer's merge-queue end is
followed by exactly one matching `finalize` before any subsequent
`announce` — never zero and never more than one.  (A cycle in which a stage
after the first fails leaves its announce unmatched and terminates the
cycler.) -/
theorem announce_finalize_alternation {E : Type}
    (cycles : List (Option E × List (Option E)))
    (hok : ∀ c ∈ cycles, c.1 = none ∧ ∀ r ∈ c.2, r = none) :
    altState (cyclesTrace cycles) false = some false := by
  induction cycles with
  | nil => rfl
  | cons c rest ih =>
    have hc := hok c (List.mem_cons_self _ _)
    have htrace : cyclesTrace (c :: rest) =
        (cycleEvents c.1 c.2).1 ++ cyclesTrace rest := by
      simp [cyclesTrace]
    rw [htrace, altState_append]
    have hcyc : altState (cycleEvents c.1 c.2).1 false = some false := by
      rw [hc.1, cycleEvents_all_ok c.2 hc.2]
      simp only [altState]
      rw [altState_append, altState_map_runStage]
      rfl
    rw [hcyc]
    exact ih fun d hd => hok d (List.mem_cons_of_mem _ hd)

/-- Witness for C5 at a concrete two-cycle all-success sequence. -/
theorem announce_finalize_alternation_witness :
    altState (cyclesTrace [((none : Option Unit), [none]), (none, [])]) false =
      some false :=
  announce_finalize_alternation [((none : Option Unit), [none]), (none, [])] (by decide)

/-- C7 counterexample: in a cycle whose second module fails, the write
handle is released (the guard is dropped by the early return) without any
`finalize` — "the write handle is released only after finalize completes"
is false for this generated cycle. -/
theorem release_without_finalize_on_stage_error :
    releaseAfterFinalize (cycleEvents (none : Option Unit) [some ()]).1 false = false ∧
    CEvent.finalize ∉ (cycleEvents (none : Option Unit) [some ()]).1 := by
  decide

/-- C7 (amended): in every generated cycle in which all stages succeed, the
write handle on the cycler's own buffer is opened before any stage runs,
the stages execute in the fixed generated order, `announce` is issued after
the first stage and before every later stage, `finalize` is issued after
all stages, and the write handle is released only after `finalize`
completes.  (If a stage fails, the cycle aborts early and the handle is
released without a finalize.) -/
theorem cycle_event_order {E : Type} (first : Option E) (remaining : List (Option E))
    (hfirst : first = none) (hrest : ∀ r ∈ remaining, r = none) :
    (cycleEvents first remaining).1 =
      [CEvent.openWriter, .runStage 0, .announce] ++
        ((List.range' 1 remaining.length).map CEvent.runStage) ++
        [.finalize, .releaseWriter] ∧
    releaseAfterFinalize (cycleEvents first remaining).1 false = true := by
  subst hfirst
  rw [cycleEvents_all_ok remaining hrest]
  refine ⟨by simp, ?_⟩
  simp only [releaseAfterFinalize]
  rw [raf_map_runStage]
  rfl

/-- Witness for C7 at a concrete three-stage all-success cycle. -/
theorem cycle_event_order_witness :
    (cycleEvents (none : Option Unit) [none, none]).1 =
      [CEvent.openWriter, .runStage 0, .announce] ++
        ((List.range' 1 2).map CEvent.runStage) ++ [.finalize, .releaseWriter] ∧
    releaseAfterFinalize (cycleEvents (none : Option Unit) [none, none]).1 false = true :=
  cycle_event_order none [none, none] rfl (by decide)

theorem bsteps_reader_stable {α : Type} {s s' : Buf α} {tr : List (BAction α)}
    (hsteps : BSteps s tr s') :
    ∀ rid j, (rid, j) ∈ s.readers → (∀ a ∈ tr, a ≠ BAction.release rid) →
      (rid, j) ∈ s'.readers ∧ s'.slots.get? j = s.slots.get? j := by
  induction hsteps with
  | refl s => intro rid j hmem _; exact ⟨hmem, rfl⟩
  | @step s0 t0 u0 a0 tr0 hstep hrest ih =>
    intro rid j hmem hnorel
    have hnorel' := fun a ha => hnorel a (List.mem_cons_of_mem _ ha)
    cases hstep with
    | read rid' h =>
      have ht := ih rid j (List.mem_cons_of_mem _ hmem) hnorel'
      exact ⟨ht.1, ht.2⟩
    | release rid' =>
      have hne : rid' ≠ rid := by
        intro he
        exact (hnorel _ (List.mem_cons_self _ _)) (by rw [he])
      have hmem' : (rid, j) ∈ s0.readers.filter (fun p => p.1 ≠ rid') :=
        List.mem_filter.mpr ⟨hmem, by simpa using Ne.symm hne⟩
      have ht := ih rid j hmem' hnorel'
      exact ⟨ht.1, ht.2⟩
    | write i v hlen hfree hcur =>
      have hji : j ≠ i := hfree (rid, j) hmem
      have ht := ih rid j hmem hnorel'
      refine ⟨ht.1, ?_⟩
      rw [ht.2]
      exact List.get?_set_ne v s0.slots (fun he => hji he.symm)

/-- C8: in the slotted state buffer (modelled from spec section 4.1), for
any slot count N ≥ 2 and any interleaving of reads, releases, and writes,
the content behind a reader's already-acquired handle never changes while
the handle is held: after any step sequence that does not release the
handle, the reader still holds the same slot and that slot's content is
unchanged, regardless of intervening writes.  Steps are atomic, so no
torn write is representable. -/
theorem reader_view_stable {α : Type} (s s' : Buf α) (tr : List (BAction α))
    (hN : 2 ≤ s.slots.length) (hsteps : BSteps s tr s') (rid j : Nat)
    (hmem : (rid, j) ∈ s.readers)
    (hnorel : ∀ a ∈ tr, a ≠ BAction.release rid) :
    (rid, j) ∈ s'.readers ∧ s'.slots.get? j = s.slots.get? j :=
  bsteps_reader_stable hsteps rid j hmem hnorel

/-- Witness for C8: a two-slot buffer with one live reader of slot 0; a
write to slot 1 leaves the reader's view of slot 0 unchanged. -/
theorem reader_view_stable_witness :
    ((0, 0) ∈ (⟨[10, 99], 1, [(0, 0)]⟩ : Buf Nat).readers) ∧
    (⟨[10, 99], 1, [(0, 0)]⟩ : Buf Nat).slots.get? 0 =
      (⟨[10, 20], 0, [(0, 0)]⟩ : Buf Nat).slots.get? 0 :=
  reader_view_stable ⟨[10, 20], 0, [(0, 0)]⟩ ⟨[10, 99], 1, [(0, 0)]⟩
    [BAction.write 1 99] (by decide)
    (BSteps.step
      (BStep.write ⟨[10, 20], 0, [(0, 0)]⟩ 1 99 (by decide) (by decide) (by decide))
      (BSteps.refl _))
    0 0 (by decide) (by decide)

end Hulk
